import Mathlib

/-!
Shallow embedding of the geomarketing scoring pipeline of this repository
(src/main.py, src/file.py) and proofs about the claims of its specification.

Conventions of the embedding:
* pandas DataFrames become Lean lists of structure values, one structure per row;
  a NaN / missing cell becomes an Option that is none;
* numeric cells are rationals (the float arithmetic of the source is exact on
  all quantities considered here: sums, divided differences, min and max);
* geometry is abstracted by the list of distances from a region to each point
  of a point set (shapely's distance function is only ever consumed through
  those distances, which are nonnegative reals);
* a Python try/except around a single call is modelled by an explicit Except
  argument injecting that call's possible failure.
-/

namespace Geo

/-! ### String cleaning (main.py lines 119-127, file.py lines 23-30) -/

/-- Drops every occurrence of the characters of bad from the string, modelling
a chain of pandas str.replace of each character by the empty string. -/
def stripChars (bad : List Char) (s : String) : String :=
  ⟨s.data.filter (fun c => !(bad.contains c))⟩

/-- Cleaning used by load_and_merge_income_data in file.py line 24:
drops double quotes and commas from the income column. -/
def cleanIncome (s : String) : String :=
  stripChars [Char.ofNat 34, ','] s

/-- Cleaning used by load_income_data in main.py lines 122 and 126:
drops double quotes, commas and single quotes. -/
def cleanNumericMain (s : String) : String :=
  stripChars [Char.ofNat 34, ',', Char.ofNat 39] s

/-- Removes the first dot of the string, as str.replace with count 1 in
file.py line 27 does. -/
def removeFirstDotAux : List Char → List Char
  | [] => []
  | c :: cs => if c = '.' then cs else c :: removeFirstDotAux cs

/-- String version of removeFirstDotAux. -/
def removeFirstDot (s : String) : String :=
  ⟨removeFirstDotAux s.data⟩

/-- Python str.isnumeric restricted to ASCII digits: true iff the string is
nonempty and all of its characters are digits (file.py line 27). -/
def pyIsNumeric (s : String) : Bool :=
  !s.data.isEmpty && s.data.all Char.isDigit

/-- Value of a digit string read in base ten. -/
def digitsToNat (cs : List Char) : Nat :=
  cs.foldl (fun n c => 10 * n + (c.toNat - 48)) 0

/-- Parses an unsigned decimal literal: digits, optionally a dot and more
digits, at least one digit in total; anything else is none. -/
def parseUnsigned (cs : List Char) : Option ℚ :=
  let intPart := cs.takeWhile (fun c => c != '.')
  let rest := cs.dropWhile (fun c => c != '.')
  match rest with
  | [] =>
    if intPart.isEmpty then none
    else if intPart.all Char.isDigit then some ((digitsToNat intPart : ℚ))
    else none
  | _ :: frac =>
    if intPart.isEmpty && frac.isEmpty then none
    else if intPart.all Char.isDigit && frac.all Char.isDigit then
      some ((digitsToNat intPart : ℚ) + (digitsToNat frac : ℚ) / ((10 : ℚ) ^ frac.length))
    else none

/-- Model of pandas to_numeric with coercion of errors (main.py lines 123 and
127) and of astype float on a cleaned numeric string (file.py line 30): an
optional sign followed by an unsigned decimal literal; unparseable input
becomes none (NaN), never zero and never an exception. -/
def parseNumeric (s : String) : Option ℚ :=
  match s.data with
  | '-' :: cs => (parseUnsigned cs).map (fun x => -x)
  | '+' :: cs => parseUnsigned cs
  | cs => parseUnsigned cs

/-! ### Fuzzy matching (file.py lines 41-44) -/

/-- One row of the edit-distance recursion: the distance of x consed onto a
list xs to the second argument, expressed through the distance function of xs
alone. Phrased this way the recursion is structural in each argument, so the
function evaluates inside the kernel. -/
def levRow (x : Char) (levxs : List Char → Nat) : List Char → Nat
  | [] => levxs [] + 1
  | y :: ys =>
    if x = y then levxs ys
    else min (levxs (y :: ys) + 1) (min (levRow x levxs ys + 1) (levxs ys + 2))

/-- Levenshtein distance with substitution cost two, the edit distance
underlying the similarity ratio of the fuzzywuzzy library used by
process.extractOne in file.py line 43: deleting or inserting a character
costs one, substituting costs two. -/
def lev : List Char → List Char → Nat
  | [], ys => ys.length
  | x :: xs, ys => levRow x (lev xs) ys

/-- Similarity score on the 0..100 scale derived from the edit distance,
modelling the core ratio scorer of the fuzzywuzzy library. -/
def fuzzScore (q c : String) : Nat :=
  let d := lev q.data c.data
  let s := q.length + c.length
  if s = 0 then 100 else ((s - d) * 100) / s

/-- Scan of the candidate list keeping the first strictly best scorer,
modelling the generator maximum inside process.extractOne. -/
def extractGo (score : String → String → Nat) (q : String) :
    List String → String × Nat → String × Nat
  | [], b => b
  | c :: cs, b => extractGo score q cs (if b.2 < score q c then (c, score q c) else b)

/-- Model of process.extractOne with its default score cutoff of zero: returns
the highest scoring candidate together with its score, the first one on ties,
and none only on an empty candidate list. No threshold is applied. -/
def extractOne (score : String → String → Nat) (q : String) :
    List String → Option (String × Nat)
  | [] => none
  | c :: cs => some (extractGo score q cs (c, score q c))

/-- The matched-name computation of file.py lines 42-44: a missing query maps
to none, otherwise the best-scoring candidate name. -/
def matchedName (score : String → String → Nat) (q : Option String)
    (names : List String) : Option String :=
  q.bind (fun s => (extractOne score s names).map (fun p => p.1))

/-! ### Series minimum, maximum and min-max normalization
(main.py lines 162-166, file.py lines 32-38) -/

/-- Minimum of a pandas numeric series over its present values, none when the
series has no present value (the min of an all-NaN series is NaN). -/
def seriesMin : List ℚ → Option ℚ
  | [] => none
  | x :: xs => some (xs.foldl min x)

/-- Maximum of a pandas numeric series over its present values. -/
def seriesMax : List ℚ → Option ℚ
  | [] => none
  | x :: xs => some (xs.foldl max x)

/-- Model of normalize_data in main.py lines 162-166. The min and max are
taken over the present values only, exactly as pandas skips NaN; the source
performs the division with no degenerate-range guard, so when the maximum
equals the minimum every cell becomes NaN or infinity (0/0 respectively x/0),
modelled here as none; an absent input cell stays absent. -/
def normalize_data (vals : List (Option ℚ)) : List (Option ℚ) :=
  match seriesMin (vals.filterMap id), seriesMax (vals.filterMap id) with
  | some mn, some mx =>
    if mn = mx then vals.map (fun _ => none)
    else vals.map (Option.map (fun x => (x - mn) / (mx - mn)))
  | _, _ => vals.map (fun _ => none)

/-- Model of the income normalization of file.py lines 32-38, which does guard
the degenerate range: when the maximum equals the minimum (and on an empty
column, where the NaN comparison is falsy) every row gets the scalar 0. -/
def income_normalized_file (incomes : List ℚ) : List ℚ :=
  match seriesMin incomes, seriesMax incomes with
  | some mn, some mx =>
    if mx ≠ mn then incomes.map (fun x => (x - mn) / (mx - mn))
    else incomes.map (fun _ => 0)
  | _, _ => incomes.map (fun _ => 0)

/-! ### The merge pipeline of file.py lines 16-54 -/

/-- Row of the raw income CSV of file.py line 21: columns id,
municipality_name, population, income, the last still a string. -/
structure RawIncomeRow where
  id : String
  municipality_name : Option String
  population : String
  income : String
deriving DecidableEq, Repr

/-- Region row of the municipalities frame entering the merge: its join key is
the Gemeindename column. -/
structure Region where
  gemeindename : String
deriving DecidableEq, Repr

/-- Income row after cleaning, filtering, normalization and fuzzy matching,
right before the merge of file.py lines 47-52. -/
structure IncomeRow where
  municipality_name : Option String
  income : ℚ
  income_normalized : ℚ
  matched_name : Option String
deriving DecidableEq, Repr

/-- Cleaning and filtering stage of file.py lines 24-27: the income column is
cleaned, then every row whose income is not numeric once its first dot is
removed is dropped from the frame entirely. -/
def filterNumericRows (raw : List RawIncomeRow) : List RawIncomeRow :=
  (raw.map (fun r => { r with income := cleanIncome r.income })).filter
    (fun r => pyIsNumeric (removeFirstDot r.income))

/-- Left join of pandas with the region name as left key and the matched name
as right key (file.py lines 47-52): every region keeps at least one output
row; a region with no matching income row appears once with absent income
fields; a region with several matching income rows appears once per match. -/
def leftJoin (municipalities : List Region) (rows : List IncomeRow) :
    List (Region × Option IncomeRow) :=
  municipalities.flatMap (fun m =>
    let ms := rows.filter (fun a => a.matched_name = some m.gemeindename)
    if ms.isEmpty then [(m, none)] else ms.map (fun a => (m, some a)))

/-- Model of load_and_merge_income_data in file.py lines 16-54, with the CSV
already read into raw rows: clean and filter the income column, parse it,
min-max normalize it, fuzzy match each municipality_name against the region
names, and left join the result onto the regions. -/
def load_and_merge_income_data (municipalities : List Region)
    (raw : List RawIncomeRow) : List (Region × Option IncomeRow) :=
  let filtered := filterNumericRows raw
  let incomes := filtered.map (fun r => (parseNumeric r.income).getD 0)
  let norms := income_normalized_file incomes
  let names := municipalities.map (fun m => m.gemeindename)
  let rows := List.zipWith
    (fun r n =>
      ({ municipality_name := r.municipality_name,
         income := (parseNumeric r.income).getD 0,
         income_normalized := n,
         matched_name := matchedName fuzzScore r.municipality_name names } : IncomeRow))
    filtered norms
  leftJoin municipalities rows

/-! ### The merge pipeline of main.py lines 86-160 -/

/-- Row of the income CSV of main.py line 114, numeric columns still raw
strings. -/
structure IncomeRec where
  region_id : String
  region_name : String
  income_total_mio : String
  income_per_taxpayer : String
deriving DecidableEq, Repr

/-- Income row after the cleaning of main.py lines 119-127: both numeric
columns cleaned and coerced, unparseable cells nulled, the row kept. -/
structure IncomeRecParsed where
  region_id : String
  region_name : String
  income_total_mio : Option ℚ
  income_per_taxpayer : Option ℚ
deriving DecidableEq, Repr

/-- Model of the cleaning part of load_income_data in main.py lines 114-129:
a map over the rows, so no row is ever dropped; only unparseable numeric
cells become none. -/
def load_income_data (rows : List IncomeRec) : List IncomeRecParsed :=
  rows.map (fun r =>
    { region_id := r.region_id,
      region_name := r.region_name,
      income_total_mio := parseNumeric (cleanNumericMain r.income_total_mio),
      income_per_taxpayer := parseNumeric (cleanNumericMain r.income_per_taxpayer) })

/-- Municipality row of main.py, join key is the id column. -/
structure Muni where
  id : String
  name : String
deriving DecidableEq, Repr

/-- Row of the merged frame of main.py line 154 (on the success path) or of
the fallback frame of lines 158-160. -/
structure MergedDataRow where
  id : String
  name : String
  region_name : Option String
  income_total_mio : Option ℚ
  income_per_taxpayer : Option ℚ
deriving DecidableEq, Repr

/-- Pandas left join on id = region_id of main.py line 154. -/
def mergeById (munis : List Muni) (income : List IncomeRecParsed) :
    List MergedDataRow :=
  munis.flatMap (fun m =>
    let ms := income.filter (fun a => a.region_id = m.id)
    if ms.isEmpty then
      [{ id := m.id, name := m.name, region_name := none,
         income_total_mio := none, income_per_taxpayer := none }]
    else
      ms.map (fun a =>
        { id := m.id, name := m.name, region_name := some a.region_name,
          income_total_mio := a.income_total_mio,
          income_per_taxpayer := a.income_per_taxpayer }))

/-- Model of merge_datasets in main.py lines 143-160. The try/except around
the join call is made explicit: on the success path the left join is
returned; when the join raises, the except branch returns the municipalities
with the constant 80000 written into income_per_taxpayer for every region
(main.py lines 156-160). -/
def merge_datasets (munis : List Muni) (income : List IncomeRecParsed)
    (joinResult : Except String Unit) : List MergedDataRow :=
  match joinResult with
  | Except.ok _ => mergeById munis income
  | Except.error _ =>
    munis.map (fun m =>
      { id := m.id, name := m.name, region_name := none,
        income_total_mio := none, income_per_taxpayer := some 80000 })

/-! ### Distance weighting (main.py lines 168-186) -/

/-- Minimum distance of main.py line 180: the minimum of the distance list,
or max_distance when the list is empty. -/
def minDistance (dists : List ℚ) (max_distance : ℚ) : ℚ :=
  match dists with
  | [] => max_distance
  | d :: ds => ds.foldl min d

/-- Weight of main.py line 183 for one region, from its distances to the
points of interest. -/
def distanceWeight (dists : List ℚ) (max_distance : ℚ) : ℚ :=
  1 - min (minDistance dists max_distance) max_distance / max_distance

/-- Model of calculate_distance_weight in main.py lines 168-186: one weight
per region, each region given by its list of distances to the points; the
default max_distance of the source is 10000. -/
def calculate_distance_weight (pointDists : List (List ℚ)) (max_distance : ℚ) :
    List ℚ :=
  pointDists.map (fun ds => distanceWeight ds max_distance)

/-! ### Segment scoring (main.py lines 190-208) -/

/-- Clip to the interval from lo to hi, as the pandas clip method. -/
def clip (x lo hi : ℚ) : ℚ :=
  max lo (min x hi)

/-- Bell-curve preference of main.py lines 196-197: one minus twice the
distance of the normalized value to the target, clipped to the unit
interval. -/
def bell (x t : ℚ) : ℚ :=
  clip (1 - 2 * |x - t|) 0 1

/-- Model of kmu_weighting in main.py lines 190-208: normalize the per
taxpayer income over the dataset, apply the bell preference with target
seven tenths, compute the hotspot proximity weight, and combine both halves;
a row whose normalized income is NaN propagates NaN into its score. -/
def kmu_weighting (data : List MergedDataRow) (hotspotDists : List (List ℚ)) :
    List (Option ℚ) :=
  let ns := normalize_data (data.map (fun r => r.income_per_taxpayer))
  let hw := calculate_distance_weight hotspotDists 10000
  List.zipWith (fun n h => n.map (fun x => 1/2 * bell x (7/10) + 1/2 * h)) ns hw

/-! ### Ranking (main.py lines 485-500, file.py lines 275-291) -/

/-- Descending comparison on optional scores: a present score dominates any
not larger present score and every absent score; absent scores compare true
only among themselves. This is the order in which sort_values with
ascending false and the default last position for NaN lays out rows. -/
def geScore : Option ℚ → Option ℚ → Bool
  | some a, some b => decide (b ≤ a)
  | some _, none => true
  | none, none => true
  | none, some _ => false

/-- Strict version of geScore, used to keep the insertion stable. -/
def gtScore : Option ℚ → Option ℚ → Bool
  | some a, some b => decide (b < a)
  | some _, none => true
  | none, _ => false

/-- Stable descending insertion of a scored row. -/
def insertDesc (x : String × Option ℚ) :
    List (String × Option ℚ) → List (String × Option ℚ)
  | [] => [x]
  | y :: ys => if gtScore y.2 x.2 then y :: insertDesc x ys else x :: y :: ys

/-- Stable descending sort of scored rows with absent scores last, modelling
sort_values with ascending false of main.py line 496. -/
def sortValuesDesc : List (String × Option ℚ) → List (String × Option ℚ)
  | [] => []
  | x :: xs => insertDesc x (sortValuesDesc xs)

/-- Model of the top extraction of main.py line 496: sort descending and take
the first k rows (the source fixes k at ten through head). Rows whose score
is NaN sort last but are not removed. -/
def top_k (rows : List (String × Option ℚ)) (k : Nat) :
    List (String × Option ℚ) :=
  (sortValuesDesc rows).take k

/-! ## Helper lemmas -/

theorem extractGo_spec (score : String → String → Nat) (q : String)
    (cs : List String) : ∀ b : String × Nat, b.2 = score q b.1 →
    (extractGo score q cs b).2 = score q (extractGo score q cs b).1 ∧
    ((extractGo score q cs b).1 = b.1 ∨ (extractGo score q cs b).1 ∈ cs) ∧
    b.2 ≤ (extractGo score q cs b).2 ∧
    ∀ c ∈ cs, score q c ≤ (extractGo score q cs b).2 := by
  induction cs with
  | nil =>
    intro b hb
    exact ⟨hb, Or.inl rfl, le_refl _, by simp⟩
  | cons c cs ih =>
    intro b hb
    simp only [extractGo]
    by_cases h : b.2 < score q c
    · simp only [if_pos h]
      obtain ⟨h1, h2, h3, h4⟩ := ih (c, score q c) rfl
      refine ⟨h1, ?_, le_trans (le_of_lt h) h3, ?_⟩
      · rcases h2 with h2 | h2
        · exact Or.inr (List.mem_cons.mpr (Or.inl h2))
        · exact Or.inr (List.mem_cons_of_mem _ h2)
      · intro d hd
        rcases List.mem_cons.mp hd with rfl | hd
        · exact h3
        · exact h4 d hd
    · simp only [if_neg h]
      obtain ⟨h1, h2, h3, h4⟩ := ih b hb
      refine ⟨h1, ?_, h3, ?_⟩
      · rcases h2 with h2 | h2
        · exact Or.inl h2
        · exact Or.inr (List.mem_cons_of_mem _ h2)
      · intro d hd
        rcases List.mem_cons.mp hd with rfl | hd
        · calc score q d ≤ b.2 := le_of_not_lt h
            _ ≤ _ := h3
        · exact h4 d hd

theorem leftJoin_length_ge (municipalities : List Region) (rows : List IncomeRow) :
    municipalities.length ≤ (leftJoin municipalities rows).length := by
  induction municipalities with
  | nil => simp [leftJoin]
  | cons m ms ih =>
    simp only [leftJoin, List.flatMap_cons, List.length_append, List.length_cons] at *
    have hgroup : 1 ≤ (if (rows.filter
          (fun a => a.matched_name = some m.gemeindename)).isEmpty
        then [(m, (none : Option IncomeRow))]
        else (rows.filter (fun a => a.matched_name = some m.gemeindename)).map
          (fun a => (m, some a))).length := by
      by_cases h : (rows.filter (fun a => a.matched_name = some m.gemeindename)).isEmpty
      · simp [h]
      · have hne : rows.filter (fun a => a.matched_name = some m.gemeindename) ≠ [] := by
          simpa [List.isEmpty_iff] using h
        have hpos := List.length_pos.mpr hne
        simp only [if_neg h, List.length_map]
        omega
    omega

theorem leftJoin_mem_none (municipalities : List Region) (rows : List IncomeRow)
    (r : Region) (hr : r ∈ municipalities)
    (h : ∀ a ∈ rows, ¬ a.matched_name = some r.gemeindename) :
    (r, (none : Option IncomeRow)) ∈ leftJoin municipalities rows := by
  apply List.mem_flatMap.mpr
  refine ⟨r, hr, ?_⟩
  have hfilter : rows.filter (fun a => a.matched_name = some r.gemeindename) = [] := by
    apply List.filter_eq_nil_iff.mpr
    intro a ha
    simpa using h a ha
  simp [hfilter]

theorem leftJoin_mem_some (municipalities : List Region) (rows : List IncomeRow)
    (r : Region) (a : IncomeRow) (hr : r ∈ municipalities) (ha : a ∈ rows)
    (hm : a.matched_name = some r.gemeindename) :
    (r, some a) ∈ leftJoin municipalities rows := by
  apply List.mem_flatMap.mpr
  refine ⟨r, hr, ?_⟩
  have hmem : a ∈ rows.filter (fun b => b.matched_name = some r.gemeindename) :=
    List.mem_filter.mpr ⟨ha, by simp [hm]⟩
  have hne : (rows.filter (fun b => b.matched_name = some r.gemeindename)).isEmpty
      = false := by
    rcases hq : rows.filter (fun b => b.matched_name = some r.gemeindename) with _ | _
    · rw [hq] at hmem; exact absurd hmem (List.not_mem_nil a)
    · rw [hq]; rfl
  simp only [hne, Bool.false_eq_true, if_false]
  exact List.mem_map.mpr ⟨a, hmem, rfl⟩

theorem foldl_min_le (xs : List ℚ) :
    ∀ a : ℚ, xs.foldl min a ≤ a ∧ ∀ x ∈ xs, xs.foldl min a ≤ x := by
  induction xs with
  | nil =>
    intro a
    exact ⟨le_refl _, by simp⟩
  | cons x xs ih =>
    intro a
    simp only [List.foldl_cons]
    obtain ⟨h1, h2⟩ := ih (min a x)
    refine ⟨le_trans h1 (min_le_left _ _), ?_⟩
    intro y hy
    rcases List.mem_cons.mp hy with rfl | hy
    · exact le_trans h1 (min_le_right _ _)
    · exact h2 y hy

theorem le_foldl_min (xs : List ℚ) :
    ∀ (a c : ℚ), c ≤ a → (∀ x ∈ xs, c ≤ x) → c ≤ xs.foldl min a := by
  induction xs with
  | nil =>
    intro a c hc _
    simpa using hc
  | cons x xs ih =>
    intro a c hc hx
    simp only [List.foldl_cons]
    exact ih (min a x) c (le_min hc (hx x (List.mem_cons_self x xs)))
      (fun y hy => hx y (List.mem_cons_of_mem _ hy))

theorem le_foldl_max (xs : List ℚ) :
    ∀ a : ℚ, a ≤ xs.foldl max a ∧ ∀ x ∈ xs, x ≤ xs.foldl max a := by
  induction xs with
  | nil =>
    intro a
    exact ⟨le_refl _, by simp⟩
  | cons x xs ih =>
    intro a
    simp only [List.foldl_cons]
    obtain ⟨h1, h2⟩ := ih (max a x)
    refine ⟨le_trans (le_max_left _ _) h1, ?_⟩
    intro y hy
    rcases List.mem_cons.mp hy with rfl | hy
    · exact le_trans (le_max_right _ _) h1
    · exact h2 y hy

theorem seriesMin_le (l : List ℚ) (m : ℚ) (hm : seriesMin l = some m) :
    ∀ x ∈ l, m ≤ x := by
  cases l with
  | nil => simp [seriesMin] at hm
  | cons a as =>
    simp only [seriesMin, Option.some.injEq] at hm
    obtain ⟨h1, h2⟩ := foldl_min_le as a
    intro x hx
    rcases List.mem_cons.mp hx with rfl | hx
    · exact hm ▸ h1
    · exact hm ▸ h2 x hx

theorem le_seriesMax (l : List ℚ) (m : ℚ) (hm : seriesMax l = some m) :
    ∀ x ∈ l, x ≤ m := by
  cases l with
  | nil => simp [seriesMax] at hm
  | cons a as =>
    simp only [seriesMax, Option.some.injEq] at hm
    obtain ⟨h1, h2⟩ := le_foldl_max as a
    intro x hx
    rcases List.mem_cons.mp hx with rfl | hx
    · exact hm ▸ h1
    · exact hm ▸ h2 x hx

theorem minDistance_le_mem (dists : List ℚ) (max_distance d : ℚ)
    (hd : d ∈ dists) : minDistance dists max_distance ≤ d := by
  cases dists with
  | nil => exact absurd hd (List.not_mem_nil d)
  | cons a as =>
    obtain ⟨h1, h2⟩ := foldl_min_le as a
    rcases List.mem_cons.mp hd with rfl | hd
    · exact h1
    · exact h2 d hd

theorem minDistance_nonneg (dists : List ℚ) (max_distance : ℚ)
    (hmax : 0 ≤ max_distance) (h : ∀ d ∈ dists, 0 ≤ d) :
    0 ≤ minDistance dists max_distance := by
  cases dists with
  | nil => exact hmax
  | cons a as =>
    exact le_foldl_min as a 0 (h a (List.mem_cons_self a as))
      (fun y hy => h y (List.mem_cons_of_mem _ hy))

theorem geScore_trans (a b c : Option ℚ) (h1 : geScore a b = true)
    (h2 : geScore b c = true) : geScore a c = true := by
  cases a <;> cases b <;> cases c
  all_goals simp [geScore] at *
  all_goals linarith

theorem gtScore_ge (a b : Option ℚ) (h : gtScore a b = true) :
    geScore a b = true := by
  cases a <;> cases b
  all_goals simp [gtScore, geScore] at *
  all_goals linarith

theorem not_gtScore_ge (a b : Option ℚ) (h : gtScore a b = false) :
    geScore b a = true := by
  cases a <;> cases b
  all_goals simp [gtScore, geScore] at *
  all_goals linarith

theorem mem_insertDesc (x y : String × Option ℚ) (l : List (String × Option ℚ)) :
    y ∈ insertDesc x l ↔ y = x ∨ y ∈ l := by
  induction l with
  | nil => simp [insertDesc]
  | cons z zs ih =>
    simp only [insertDesc]
    by_cases h : gtScore z.2 x.2
    · simp only [if_pos h, List.mem_cons, ih]
      tauto
    · simp only [if_neg h, List.mem_cons]

theorem pairwise_insertDesc (x : String × Option ℚ)
    (l : List (String × Option ℚ))
    (hl : List.Pairwise (fun a b => geScore a.2 b.2 = true) l) :
    List.Pairwise (fun a b => geScore a.2 b.2 = true) (insertDesc x l) := by
  induction l with
  | nil => simp [insertDesc]
  | cons z zs ih =>
    rcases List.pairwise_cons.mp hl with ⟨hz, hzs⟩
    simp only [insertDesc]
    by_cases h : gtScore z.2 x.2
    · rw [if_pos h]
      apply List.pairwise_cons.mpr
      refine ⟨?_, ih hzs⟩
      intro y hy
      rcases (mem_insertDesc x y zs).mp hy with rfl | hy
      · exact gtScore_ge _ _ h
      · exact hz y hy
    · rw [if_neg h]
      apply List.pairwise_cons.mpr
      have hxz : geScore x.2 z.2 = true :=
        not_gtScore_ge _ _ (by simpa using h)
      refine ⟨?_, hl⟩
      intro y hy
      rcases List.mem_cons.mp hy with rfl | hy
      · exact hxz
      · exact geScore_trans _ _ _ hxz (hz y hy)

theorem pairwise_sortValuesDesc (l : List (String × Option ℚ)) :
    List.Pairwise (fun a b => geScore a.2 b.2 = true) (sortValuesDesc l) := by
  induction l with
  | nil => simp [sortValuesDesc]
  | cons x xs ih => exact pairwise_insertDesc x (sortValuesDesc xs) ih

theorem length_insertDesc (x : String × Option ℚ)
    (l : List (String × Option ℚ)) :
    (insertDesc x l).length = l.length + 1 := by
  induction l with
  | nil => rfl
  | cons z zs ih =>
    simp only [insertDesc]
    by_cases h : gtScore z.2 x.2
    · simp [if_pos h, ih]
    · simp [if_neg h]

theorem length_sortValuesDesc (l : List (String × Option ℚ)) :
    (sortValuesDesc l).length = l.length := by
  induction l with
  | nil => rfl
  | cons x xs ih => simp [sortValuesDesc, length_insertDesc, ih]

theorem countP_insertDesc (p : String × Option ℚ → Bool)
    (x : String × Option ℚ) (l : List (String × Option ℚ)) :
    List.countP p (insertDesc x l)
      = List.countP p l + (if p x then 1 else 0) := by
  induction l with
  | nil => simp [insertDesc, List.countP_cons]
  | cons z zs ih =>
    simp only [insertDesc]
    by_cases h : gtScore z.2 x.2
    · rw [if_pos h, List.countP_cons, ih, List.countP_cons]
      ring
    · rw [if_neg h, List.countP_cons, List.countP_cons]

theorem countP_sortValuesDesc (p : String × Option ℚ → Bool)
    (l : List (String × Option ℚ)) :
    List.countP p (sortValuesDesc l) = List.countP p l := by
  induction l with
  | nil => rfl
  | cons x xs ih =>
    simp only [sortValuesDesc]
    rw [countP_insertDesc, ih, List.countP_cons]

theorem sorted_somes_first (l : List (String × Option ℚ))
    (hp : List.Pairwise (fun a b => geScore a.2 b.2 = true) l) :
    ∀ k : Nat, k ≤ List.countP (fun x => x.2.isSome) l →
      ∀ z ∈ l.take k, z.2.isSome = true := by
  induction l with
  | nil =>
    intro k hk z hz
    simp at hz
  | cons y ys ih =>
    rcases List.pairwise_cons.mp hp with ⟨hy, hys⟩
    intro k hk z hz
    cases k with
    | zero => simp at hz
    | succ k =>
      cases hyv : y.2 with
      | some v =>
        rw [List.take_succ_cons] at hz
        rcases List.mem_cons.mp hz with rfl | hz
        · simp [hyv]
        · have hcount : List.countP (fun x => x.2.isSome) (y :: ys)
              = List.countP (fun x => x.2.isSome) ys + 1 := by
            simp [List.countP_cons, hyv]
          exact ih hys k (by omega) z hz
      | none =>
        have hysnone : ∀ w ∈ ys, ¬ ((fun x : String × Option ℚ => x.2.isSome) w
            = true) := by
          intro w hw
          have hgw := hy w hw
          rw [hyv] at hgw
          cases hwv : w.2 with
          | some u => rw [hwv] at hgw; simp [geScore] at hgw
          | none => simp [hwv]
        have hzero : List.countP (fun x => x.2.isSome) (y :: ys) = 0 := by
          rw [List.countP_cons]
          rw [List.countP_eq_zero.mpr hysnone]
          simp [hyv]
        omega

/-! ## Claims -/

/-- C1, counterexample. The specification says a best similarity score
strictly below the threshold 80 yields no match. In the source the single
candidate scores 0, strictly below 80, yet the matcher of file.py line 43
returns that candidate: process.extractOne is called with its default score
cutoff of zero, so no threshold is ever applied. -/
theorem match_below_threshold_counterexample :
    fuzzScore "xyz" "aaaa" < 80 ∧
    matchedName fuzzScore (some "xyz") ["aaaa"] = some "aaaa" := by
  exact ⟨by decide, by decide⟩

/-- C1, amended. For every scorer, query and non-empty candidate list, the
matcher returns the highest-scoring candidate regardless of how low its score
is; there is no threshold, and no-match arises only from a missing query. -/
theorem match_returns_best_regardless_of_threshold
    (score : String → String → Nat) (q : String)
    (names : List String) (h : names ≠ []) :
    (∃ b, matchedName score (some q) names = some b ∧ b ∈ names ∧
      ∀ c ∈ names, score q c ≤ score q b) ∧
    matchedName score none names = none := by
  refine ⟨?_, rfl⟩
  cases names with
  | nil => exact absurd rfl h
  | cons c cs =>
    obtain ⟨h1, h2, h3, h4⟩ := extractGo_spec score q cs (c, score q c) rfl
    refine ⟨(extractGo score q cs (c, score q c)).1, rfl, ?_, ?_⟩
    · rcases h2 with h2 | h2
      · exact List.mem_cons.mpr (Or.inl h2)
      · exact List.mem_cons_of_mem _ h2
    · intro d hd
      rcases List.mem_cons.mp hd with rfl | hd
      · exact le_of_le_of_eq h3 h1
      · exact le_of_le_of_eq (h4 d hd) h1

/-- C1, witness for the amended theorem at a concrete input. -/
theorem match_returns_best_witness :
    (∃ b, matchedName fuzzScore (some "q") ["aaaa"] = some b ∧ b ∈ ["aaaa"] ∧
      ∀ c ∈ ["aaaa"], fuzzScore "q" c ≤ fuzzScore "q" b) ∧
    matchedName fuzzScore none ["aaaa"] = none :=
  match_returns_best_regardless_of_threshold fuzzScore "q" ["aaaa"] (by decide)

/-- C2, counterexample. The specification says the merge yields exactly one
output record per input region. With one region and two income rows that both
fuzzy-match its name, the pandas left join of file.py lines 47-52 duplicates
the region: the output has two records, and the region appears twice. -/
theorem merge_exactly_one_counterexample :
    (load_and_merge_income_data [⟨"Zug"⟩]
      [⟨"1", some "Zug", "p", "100"⟩, ⟨"2", some "Zugg", "p", "200"⟩]).length = 2 ∧
    ¬ (load_and_merge_income_data [⟨"Zug"⟩]
      [⟨"1", some "Zug", "p", "100"⟩, ⟨"2", some "Zugg", "p", "200"⟩]).length
        = ([(⟨"Zug"⟩ : Region)]).length := by
  exact ⟨by decide, by decide⟩

/-- C2, amended. The merge is a left join, never an inner join: it yields at
least one output record per input region, and a region matched by no income
row still appears, carrying none for the attribute fields; but a region
matched by several income rows appears once per match, so the output can be
longer than the region list. -/
theorem merge_left_join_amended (municipalities : List Region)
    (rows : List IncomeRow) (r : Region) (hr : r ∈ municipalities)
    (h : ∀ a ∈ rows, ¬ a.matched_name = some r.gemeindename) :
    municipalities.length ≤ (leftJoin municipalities rows).length ∧
    (r, (none : Option IncomeRow)) ∈ leftJoin municipalities rows :=
  ⟨leftJoin_length_ge municipalities rows,
    leftJoin_mem_none municipalities rows r hr h⟩

/-- C2, witness for the amended theorem at a concrete input. -/
theorem merge_left_join_witness :
    ([(⟨"Zug"⟩ : Region)]).length ≤ (leftJoin [⟨"Zug"⟩] []).length ∧
    ((⟨"Zug"⟩ : Region), (none : Option IncomeRow)) ∈ leftJoin [⟨"Zug"⟩] [] :=
  merge_left_join_amended [⟨"Zug"⟩] [] ⟨"Zug"⟩ (by decide)
    (fun a ha => absurd ha (List.not_mem_nil a))

/-- C3, counterexample. The specification says that of two attribute records
sharing a raw_name, only the one with the greater source_id is retained and
the other contributes nothing. In the source nothing deduplicates the income
frame: with two rows both named Zug, ids 1 and 2 and incomes 100 and 200, the
merged output carries both incomes, so the record with the smaller source_id
still contributes its own merged row. -/
theorem last_write_wins_counterexample :
    (load_and_merge_income_data [⟨"Zug"⟩]
      [⟨"1", some "Zug", "p", "100"⟩, ⟨"2", some "Zug", "p", "200"⟩]).map
      (fun x => x.2.map (fun a => a.income)) = [some 100, some 200] := by
  decide

/-- C3, amended. The merge applies no last-write-wins policy at all: every
income row whose matched name equals a region's name produces its own output
record, so two rows with the same raw_name and different source_id are both
retained and both contribute. -/
theorem merge_no_dedup_amended (municipalities : List Region)
    (rows : List IncomeRow) (r : Region) (a1 a2 : IncomeRow)
    (hr : r ∈ municipalities) (h1 : a1 ∈ rows) (h2 : a2 ∈ rows)
    (hm1 : a1.matched_name = some r.gemeindename)
    (hm2 : a2.matched_name = some r.gemeindename) :
    (r, some a1) ∈ leftJoin municipalities rows ∧
    (r, some a2) ∈ leftJoin municipalities rows :=
  ⟨leftJoin_mem_some municipalities rows r a1 hr h1 hm1,
    leftJoin_mem_some municipalities rows r a2 hr h2 hm2⟩

/-- C3, witness for the amended theorem at a concrete input: both of two
income rows matched to the same region appear in the join output. -/
theorem merge_no_dedup_witness :
    ((⟨"Zug"⟩ : Region), some (⟨some "Zug", 100, 0, some "Zug"⟩ : IncomeRow))
      ∈ leftJoin [⟨"Zug"⟩]
        [⟨some "Zug", 100, 0, some "Zug"⟩, ⟨some "Zug", 200, 1, some "Zug"⟩] ∧
    ((⟨"Zug"⟩ : Region), some (⟨some "Zug", 200, 1, some "Zug"⟩ : IncomeRow))
      ∈ leftJoin [⟨"Zug"⟩]
        [⟨some "Zug", 100, 0, some "Zug"⟩, ⟨some "Zug", 200, 1, some "Zug"⟩] :=
  merge_no_dedup_amended [⟨"Zug"⟩]
    [⟨some "Zug", 100, 0, some "Zug"⟩, ⟨some "Zug", 200, 1, some "Zug"⟩]
    ⟨"Zug"⟩ ⟨some "Zug", 100, 0, some "Zug"⟩ ⟨some "Zug", 200, 1, some "Zug"⟩
    (by decide) (by decide) (by decide) (by decide) (by decide)

/-- C4, counterexample. The specification says that when the maximum of the
present values equals the minimum, every present value normalizes to 0 and no
undefined value is produced. The normalize_data of main.py lines 162-166 has
no degenerate-range guard: on two equal values the division by zero turns
every cell into NaN (modelled as none), not into 0. -/
theorem normalize_degenerate_counterexample :
    normalize_data [some (5 : ℚ), some 5] = [none, none] ∧
    ¬ normalize_data [some (5 : ℚ), some 5] = [some 0, some 0] := by
  exact ⟨by decide, by decide⟩

/-- C4, amended. The min and max are indeed taken over present values only,
and in the non-degenerate case every present output of normalize_data lies in
the unit interval with the maximum mapped to 1 and the minimum to 0, absent
cells staying absent; but in the degenerate case main.py's normalize_data
produces an undefined value (NaN or infinity) in every cell, while only the
income normalization of file.py lines 32-38 maps every row to 0 there. -/
theorem normalize_data_amended (vals : List (Option ℚ)) (mn mx : ℚ)
    (hmn : seriesMin (vals.filterMap id) = some mn)
    (hmx : seriesMax (vals.filterMap id) = some mx) :
    (mn = mx → normalize_data vals = vals.map (fun _ => none)) ∧
    (mn < mx →
      normalize_data vals = vals.map (Option.map (fun x => (x - mn) / (mx - mn))) ∧
      (∀ o ∈ normalize_data vals, ∀ x, o = some x → 0 ≤ x ∧ x ≤ 1) ∧
      (∀ i : Nat, vals[i]? = some (some mx) → (normalize_data vals)[i]? = some (some 1)) ∧
      (∀ i : Nat, vals[i]? = some (some mn) → (normalize_data vals)[i]? = some (some 0))) ∧
    (∀ (incomes : List ℚ) (m : ℚ), seriesMin incomes = some m →
      seriesMax incomes = some m →
      income_normalized_file incomes = incomes.map (fun _ => 0)) := by
  refine ⟨?_, ?_, ?_⟩
  · intro heq
    simp [normalize_data, hmn, hmx, heq]
  · intro hlt
    have hne : ¬ mn = mx := ne_of_lt hlt
    have hmap : normalize_data vals
        = vals.map (Option.map (fun x => (x - mn) / (mx - mn))) := by
      simp [normalize_data, hmn, hmx, hne]
    have hpos : 0 < mx - mn := sub_pos.mpr hlt
    refine ⟨hmap, ?_, ?_, ?_⟩
    · intro o ho x hx
      rw [hmap] at ho
      obtain ⟨v, hv, hvo⟩ := List.mem_map.mp ho
      subst hvo
      cases v with
      | none => exact absurd hx (by simp)
      | some y =>
        have hxy : x = (y - mn) / (mx - mn) := by
          simpa using hx.symm
        have hy : y ∈ vals.filterMap id := by
          exact List.mem_filterMap.mpr ⟨some y, hv, rfl⟩
        have hylo : mn ≤ y := seriesMin_le _ mn hmn y hy
        have hyhi : y ≤ mx := le_seriesMax _ mx hmx y hy
        constructor
        · rw [hxy]
          exact div_nonneg (sub_nonneg.mpr hylo) (le_of_lt hpos)
        · rw [hxy]
          exact (div_le_one hpos).mpr (by linarith)
    · intro i hi
      rw [hmap, List.getElem?_map, hi]
      simp [div_self (ne_of_gt hpos)]
    · intro i hi
      rw [hmap, List.getElem?_map, hi]
      simp
  · intro incomes m h1 h2
    simp [income_normalized_file, h1, h2]

/-- C4, witness for the amended theorem at a concrete input. -/
theorem normalize_data_witness :
    normalize_data [some (0 : ℚ), some 1, none]
      = [some (0 : ℚ), some 1, none].map
        (Option.map (fun x => (x - 0) / (1 - 0))) :=
  (((normalize_data_amended [some 0, some 1, none] 0 1
    (by decide) (by decide)).2.1 (by norm_num)).1)

/-- C5. The proximity weight of main.py lines 168-186 equals one minus the
capped minimum distance divided by max_distance, where the minimum distance
over an empty point set is defined as max_distance (weight 0, no error); the
weight is 1 at distance 0, 0 at or beyond max_distance, lies in the unit
interval, never exceeds the weight of a smaller minimum distance, and the
minimum distance really is a lower bound of the distances. -/
theorem calculate_distance_weight_props (max_distance : ℚ)
    (hmax : 0 < max_distance) (dists : List ℚ) (hd : ∀ d ∈ dists, 0 ≤ d) :
    distanceWeight dists max_distance
      = 1 - min (minDistance dists max_distance) max_distance / max_distance ∧
    distanceWeight [] max_distance = 0 ∧
    (minDistance dists max_distance = 0 → distanceWeight dists max_distance = 1) ∧
    (max_distance ≤ minDistance dists max_distance →
      distanceWeight dists max_distance = 0) ∧
    0 ≤ distanceWeight dists max_distance ∧
    distanceWeight dists max_distance ≤ 1 ∧
    (∀ d ∈ dists, minDistance dists max_distance ≤ d) ∧
    (∀ dists2 : List ℚ,
      minDistance dists max_distance ≤ minDistance dists2 max_distance →
      distanceWeight dists2 max_distance ≤ distanceWeight dists max_distance) ∧
    calculate_distance_weight [dists] max_distance
      = [distanceWeight dists max_distance] := by
  have hmn : 0 ≤ minDistance dists max_distance :=
    minDistance_nonneg dists max_distance (le_of_lt hmax) hd
  refine ⟨rfl, ?_, ?_, ?_, ?_, ?_, ?_, ?_, rfl⟩
  · simp [distanceWeight, minDistance, div_self (ne_of_gt hmax)]
  · intro h0
    rw [distanceWeight, h0]
    rw [min_eq_left (le_of_lt hmax)]
    simp
  · intro hge
    rw [distanceWeight, min_eq_right hge, div_self (ne_of_gt hmax)]
    ring
  · rw [distanceWeight]
    have hle : min (minDistance dists max_distance) max_distance ≤ max_distance :=
      min_le_right _ _
    have := (div_le_one hmax).mpr hle
    linarith
  · rw [distanceWeight]
    have h0 : 0 ≤ min (minDistance dists max_distance) max_distance :=
      le_min hmn (le_of_lt hmax)
    have := div_nonneg h0 (le_of_lt hmax)
    linarith
  · exact fun d hdm => minDistance_le_mem dists max_distance d hdm
  · intro dists2 hmono
    rw [distanceWeight, distanceWeight]
    have hmin : min (minDistance dists max_distance) max_distance
        ≤ min (minDistance dists2 max_distance) max_distance :=
      min_le_min hmono (le_refl _)
    have hdiv : min (minDistance dists max_distance) max_distance / max_distance
        ≤ min (minDistance dists2 max_distance) max_distance / max_distance :=
      (div_le_div_iff_of_pos_right hmax).mpr hmin
    linarith

/-- C5, witness at a concrete input: max_distance 10000 and a single point at
distance 0. -/
theorem calculate_distance_weight_witness :
    distanceWeight [(0 : ℚ)] 10000 = 1 ∧ 0 ≤ distanceWeight [(0 : ℚ)] 10000 :=
  ⟨(calculate_distance_weight_props 10000 (by norm_num) [0]
      (by intro d hdm; simp at hdm; simp [hdm])).2.2.1 (by decide),
    (calculate_distance_weight_props 10000 (by norm_num) [0]
      (by intro d hdm; simp at hdm; simp [hdm])).2.2.2.2.1⟩

theorem normalize_example_eval :
    normalize_data [some (100000 : ℚ), some 80000] = [some 1, some 0] := by
  have hflt : List.filterMap id [some (100000 : ℚ), some 80000]
      = [100000, 80000] := by decide
  rw [normalize_data, hflt]
  norm_num [seriesMin, seriesMax, min_def, max_def]

theorem distanceWeight_nil_eval : distanceWeight [] 10000 = 0 := by
  norm_num [distanceWeight, minDistance, min_def]

/-- C6. The SME composite score of main.py lines 190-208: wherever the
normalized income of a row is present, the kmu weight of that row is half the
bell preference at target seven tenths plus half the hotspot proximity
weight; and on the two-region example with incomes 100000 and 80000 and an
empty hotspot set, the scores are one fifth and zero. -/
theorem kmu_weighting_formula (data : List MergedDataRow)
    (hotspotDists : List (List ℚ)) (i : Nat) (n : ℚ) (ds : List ℚ)
    (hn : (normalize_data (data.map (fun r => r.income_per_taxpayer)))[i]?
      = some (some n))
    (hds : hotspotDists[i]? = some ds) :
    (kmu_weighting data hotspotDists)[i]?
      = some (some (1/2 * bell n (7/10) + 1/2 * distanceWeight ds 10000)) ∧
    kmu_weighting
      [⟨"1", "Zug", some "Zug", none, some 100000⟩,
       ⟨"2", "Zuerich", some "Zuerich", none, some 80000⟩] [[], []]
      = [some (1/5), some 0] := by
  constructor
  · simp only [kmu_weighting, calculate_distance_weight]
    rw [List.getElem?_zipWith, hn, List.getElem?_map, hds]
    rfl
  · simp only [kmu_weighting, calculate_distance_weight, List.map_cons,
      List.map_nil, normalize_example_eval, distanceWeight_nil_eval,
      List.zipWith_cons_cons, List.zipWith_nil_right, Option.map_some,
      Option.map_none]
    norm_num [bell, clip, min_def, max_def, abs_le, abs_of_nonneg, abs_of_nonpos]

/-- C6, witness for the formula part at a concrete input. -/
theorem kmu_weighting_witness :
    (kmu_weighting
      [⟨"1", "Zug", some "Zug", none, some 100000⟩,
       ⟨"2", "Zuerich", some "Zuerich", none, some 80000⟩] [[], []])[0]?
      = some (some (1/2 * bell 1 (7/10) + 1/2 * distanceWeight [] 10000)) :=
  (kmu_weighting_formula
    [⟨"1", "Zug", some "Zug", none, some 100000⟩,
     ⟨"2", "Zuerich", some "Zuerich", none, some 80000⟩]
    [[], []] 0 1 []
    (by simp only [List.map_cons, List.map_nil, normalize_example_eval]; rfl)
    (by decide)).1

/-- C7, counterexample. The specification says the top extraction never
includes null scores and has length equal to the smaller of k and the count
of non-null scores. With one non-null and one null score and k = 10, the
source's sort-then-head keeps the NaN row: the result has length 2, not 1,
and contains the null-scored region. -/
theorem top_k_counterexample :
    ¬ (top_k [("a", some (1 : ℚ)), ("b", none)] 10).length
        = min 10 (List.countP (fun x => x.2.isSome)
            [("a", some (1 : ℚ)), ("b", none)]) ∧
    ("b", (none : Option ℚ)) ∈ top_k [("a", some (1 : ℚ)), ("b", none)] 10 := by
  exact ⟨by decide, by decide⟩

/-- C7, amended. The top extraction sorts descending with null scores last
and takes k rows: its length is the smaller of k and the total number of
rows (null-scored rows included), the result is descending under the
null-last order, and only when at least k rows have non-null scores is every
returned row non-null. -/
theorem top_k_amended (rows : List (String × Option ℚ)) (k : Nat) :
    (top_k rows k).length = min k rows.length ∧
    List.Pairwise (fun a b => geScore a.2 b.2 = true) (top_k rows k) ∧
    (k ≤ List.countP (fun x => x.2.isSome) rows →
      ∀ z ∈ top_k rows k, z.2.isSome = true) := by
  refine ⟨?_, ?_, ?_⟩
  · simp only [top_k]
    rw [List.length_take, length_sortValuesDesc]
  · exact List.Pairwise.sublist (List.take_sublist _ _)
      (pairwise_sortValuesDesc rows)
  · intro hk
    have hc : k ≤ List.countP (fun x => x.2.isSome) (sortValuesDesc rows) := by
      rw [countP_sortValuesDesc]
      exact hk
    exact sorted_somes_first (sortValuesDesc rows)
      (pairwise_sortValuesDesc rows) k hc

/-- C7, witness for the amended theorem at a concrete input. -/
theorem top_k_amended_witness :
    (top_k [("a", some (1 : ℚ))] 1).length = min 1 1 ∧
    ("a", some (1 : ℚ)).2.isSome = true :=
  ⟨by
    have h := (top_k_amended [("a", some (1 : ℚ))] 1).1
    simpa using h,
  (top_k_amended [("a", some (1 : ℚ))] 1).2.2 (by decide)
    ("a", some (1 : ℚ)) (by decide)⟩

/-- C8, counterexample. The specification says a record with an unparseable
numeric field is kept with only that field nulled. The filter of file.py
line 27 instead drops the whole row: of two rows, the one whose income is X
vanishes from the merge input. -/
theorem record_dropped_counterexample :
    filterNumericRows [⟨"1", some "Zug", "p", "X"⟩, ⟨"2", some "Zugg", "p", "100"⟩]
      = [⟨"2", some "Zugg", "p", "100"⟩] ∧
    ¬ (filterNumericRows [⟨"1", some "Zug", "p", "X"⟩,
        ⟨"2", some "Zugg", "p", "100"⟩]).length = 2 := by
  exact ⟨by decide, by decide⟩

/-- C8, amended. The loader of main.py lines 114-129 does behave as the
specification says: every record is kept (the output has one row per input
row, with id and name preserved), an unparseable numeric cell is nulled
rather than coerced to zero, and a parseable cell with separators is parsed;
but the loader of file.py line 27 drops the entire row instead of nulling
the field. -/
theorem unparseable_field_amended (rows : List IncomeRec) (i : Nat)
    (r : IncomeRec) (hi : rows[i]? = some r) :
    (load_income_data rows).length = rows.length ∧
    (load_income_data rows)[i]? = some
      { region_id := r.region_id, region_name := r.region_name,
        income_total_mio := parseNumeric (cleanNumericMain r.income_total_mio),
        income_per_taxpayer := parseNumeric (cleanNumericMain r.income_per_taxpayer) } ∧
    parseNumeric (cleanNumericMain "X") = none ∧
    parseNumeric (cleanNumericMain "80,000") = some 80000 := by
  refine ⟨by simp [load_income_data], ?_, by decide, by decide⟩
  simp only [load_income_data]
  rw [List.getElem?_map, hi]
  rfl

/-- C8, witness for the amended theorem at a concrete input. -/
theorem unparseable_field_witness :
    (load_income_data [⟨"1", "A", "X", "80,000"⟩]).length
        = ([(⟨"1", "A", "X", "80,000"⟩ : IncomeRec)]).length ∧
    (load_income_data [⟨"1", "A", "X", "80,000"⟩])[0]? = some
      { region_id := "1", region_name := "A",
        income_total_mio := parseNumeric (cleanNumericMain "X"),
        income_per_taxpayer := parseNumeric (cleanNumericMain "80,000") } :=
  ⟨(unparseable_field_amended [⟨"1", "A", "X", "80,000"⟩] 0
      ⟨"1", "A", "X", "80,000"⟩ (by decide)).1,
    (unparseable_field_amended [⟨"1", "A", "X", "80,000"⟩] 0
      ⟨"1", "A", "X", "80,000"⟩ (by decide)).2.1⟩

/-- C9. The bell-curve preference of main.py lines 196-197 is symmetric about
its target, floored at 0 and capped at 1. -/
theorem bell_curve_symmetry (t d x : ℚ) :
    bell (t + d) t = bell (t - d) t ∧ 0 ≤ bell x t ∧ bell x t ≤ 1 := by
  refine ⟨?_, le_max_left _ _, ?_⟩
  · have h1 : t + d - t = d := by ring
    have h2 : t - d - t = -d := by ring
    rw [bell, bell, h1, h2, abs_neg]
  · exact max_le (by norm_num) (min_le_right _ _)

/-- C10. When the join inside merge_datasets raises, the except branch of
main.py lines 156-160 returns the municipalities with income_per_taxpayer set
to the constant 80000 for every region, a fabricated default rather than
absent attribute fields. -/
theorem merge_datasets_error_default (munis : List Muni)
    (income : List IncomeRecParsed) (e : String) :
    merge_datasets munis income (Except.error e)
      = munis.map (fun m =>
          { id := m.id, name := m.name, region_name := none,
            income_total_mio := none, income_per_taxpayer := some 80000 }) ∧
    (merge_datasets munis income (Except.error e)).map
        (fun row => row.income_per_taxpayer)
      = munis.map (fun _ => some 80000) := by
  refine ⟨rfl, ?_⟩
  show List.map _ (List.map _ munis) = _
  rw [List.map_map]
  rfl

end Geo
